import Mathlib

/-!
Shallow embedding of the KILT prototype SDK claim/attestation core:
crypto primitive interface (`Crypto`), canonical object hashing
(`hashObjectAsStr` from src/crypto/Crypto.ts), the commitment tree
(`RequestForAttestation`), credentials (`AttestedClaim`), attestations,
delegation node hashing and the messaging envelope, together with
theorems settling the specification claims about them.
-/

/-- Abstract interface to the external cryptographic collaborators the SDK
imports from polkadot: blake2 hashing (as hex string and as raw bytes),
string/hex-to-byte conversion, address-based signature verification,
asymmetric decryption and JSON parsing.  The SDK treats all of these as
opaque library functions, so the embedding quantifies over them. -/
structure Crypto where
  hashStr : String → String
  hashBytes : List Nat → List Nat
  toBytes : String → List Nat
  bytesToHex : List Nat → String
  verifySig : String → String → String → Bool
  decryptAsym : String → String → String → Option String
  parseJson : String → Option String

/-- JSON-like values a claim attribute can hold: the input type
`object | string | number | boolean` of `hashObjectAsStr`. -/
inductive Value : Type where
  | str (s : String) : Value
  | num (n : Int) : Value
  | bool (b : Bool) : Value
  | obj (fields : List (String × Value)) : Value

/-- Key order used by the canonical object sort: compare field names. -/
def keyLe (a b : String × Value) : Prop := a.1 ≤ b.1

instance : DecidableRel keyLe := fun a b =>
  inferInstanceAs (Decidable (a.1 ≤ b.1))

instance : IsTotal (String × Value) keyLe :=
  ⟨fun a b => le_total a.1 b.1⟩

instance : IsTrans (String × Value) keyLe :=
  ⟨fun _ _ _ h h' => le_trans h h'⟩

mutual

/-- Model of `jsonabc.sortObj`: recursively sort object keys so that
serialization is key-order independent; leaves pass through. -/
def sortObj (v : Value) : Value :=
  match v with
  | .str s => .str s
  | .num n => .num n
  | .bool b => .bool b
  | .obj fields => .obj (List.insertionSort keyLe (sortFields fields))
termination_by structural v

/-- Recursively canonicalize every field value of an object. -/
def sortFields (l : List (String × Value)) : List (String × Value) :=
  match l with
  | [] => []
  | (k, v) :: rest => (k, sortObj v) :: sortFields rest
termination_by structural l

end

/-- Decimal string form of a JS number (`value.toString()` on an integer). -/
def intToString (n : Int) : String := toString n

mutual

/-- Model of `JSON.stringify` on our value type (string escaping is not
modelled; field names and string contents in this development contain no
quotes or braces). -/
def stringify : Value → String
  | .str s => "\"" ++ s ++ "\""
  | .num n => intToString n
  | .bool b => Bool.rec "false" "true" b
  | .obj fields => "\x7b" ++ stringifyFields fields ++ "\x7d"

/-- Serialize object fields in order, comma separated. -/
def stringifyFields : List (String × Value) → String
  | [] => ""
  | [(k, v)] => "\"" ++ k ++ "\":" ++ stringify v
  | (k, v) :: rest => "\"" ++ k ++ "\":" ++ stringify v ++ "," ++ stringifyFields rest

end

/-- `hashObjectAsStr` from src/crypto/Crypto.ts: objects are serialized
after a canonical key sort, numbers via `toString`, booleans via
`JSON.stringify`, strings pass through unchanged; a truthy (non-empty)
nonce is prepended before hashing. -/
def hashObjectAsStr (H : Crypto) (value : Value) (nonce : Option String) : String :=
  let input : String :=
    match value with
    | .obj _ => stringify (sortObj value)
    | .num n => intToString n
    | .bool b => Bool.rec "false" "true" b
    | .str s => s
  let input' : String :=
    match nonce with
    | some n => if n ≠ "" then n ++ input else input
    | none => input
  H.hashStr input'

/-- `hashNonceValue` from RequestForAttestation.ts (the nonce may have been
deleted by redaction, hence the `Option`). -/
def hashNonceValue (H : Crypto) (nonce : Option String) (value : Value) : String :=
  hashObjectAsStr H value nonce

/-- A nonce/hash commitment pair; redaction deletes the nonce, so it is
optional, while the hash always remains. -/
structure NonceHash where
  nonce : Option String
  hash : String
deriving DecidableEq

/-- The claim embedded in a request: schema hash, owner address (deletable
by redaction) and the attribute contents in insertion order. -/
structure Claim where
  cTypeHash : String
  owner : Option String
  contents : List (String × Value)

/-- An on-ledger attestation record (src/attestation/Attestation.ts). -/
structure Attestation where
  claimHash : String
  cTypeHash : String
  owner : String
  revoked : Bool
  delegationId : Option String
deriving DecidableEq

/-- The commitment tree of src/requestforattestation/RequestForAttestation.ts:
claim, owner and schema commitments, per-attribute hash tree, legitimations
(each a request paired with its attestation, i.e. an attested claim),
optional delegation id, the stored root hash and the claimer signature. -/
inductive RequestForAttestation : Type where
  | mk (claim : Claim) (claimOwner : NonceHash) (ctypeHash : NonceHash)
       (claimHashTree : List (String × NonceHash))
       (legitimations : List (RequestForAttestation × Attestation))
       (delegationId : Option String)
       (rootHash : String) (claimerSignature : String) : RequestForAttestation

/-- An attested claim (credential) bundles a request with its attestation. -/
abbrev AttestedClaim : Type := RequestForAttestation × Attestation

def RequestForAttestation.claim : RequestForAttestation → Claim
  | .mk c _ _ _ _ _ _ _ => c

def RequestForAttestation.claimOwner : RequestForAttestation → NonceHash
  | .mk _ co _ _ _ _ _ _ => co

def RequestForAttestation.ctypeHash : RequestForAttestation → NonceHash
  | .mk _ _ ct _ _ _ _ _ => ct

def RequestForAttestation.claimHashTree : RequestForAttestation → List (String × NonceHash)
  | .mk _ _ _ t _ _ _ _ => t

def RequestForAttestation.legitimations : RequestForAttestation → List (RequestForAttestation × Attestation)
  | .mk _ _ _ _ l _ _ _ => l

def RequestForAttestation.delegationId : RequestForAttestation → Option String
  | .mk _ _ _ _ _ d _ _ => d

def RequestForAttestation.rootHash : RequestForAttestation → String
  | .mk _ _ _ _ _ _ rh _ => rh

def RequestForAttestation.claimerSignature : RequestForAttestation → String
  | .mk _ _ _ _ _ _ _ s => s

/-- `getHashLeaves`: owner commitment hash, schema commitment hash, the
attribute-tree hashes in key insertion order, each legitimation hash
(`legitimation.getHash()`, i.e. its attestation claimHash) and, when truthy,
the delegation id; each converted to bytes. -/
def RequestForAttestation.getHashLeaves (H : Crypto) (r : RequestForAttestation) : List (List Nat) :=
  [H.toBytes r.claimOwner.hash, H.toBytes r.ctypeHash.hash]
    ++ r.claimHashTree.map (fun p => H.toBytes p.2.hash)
    ++ r.legitimations.map (fun l => H.toBytes l.2.claimHash)
    ++ (match r.delegationId with
        | some d => if d ≠ "" then [H.toBytes d] else []
        | none => [])

/-- `calculateRootHash`: a single leaf is the root itself; otherwise the
root is the digest of the concatenation of all leaves; rendered as hex. -/
def RequestForAttestation.calculateRootHash (H : Crypto) (r : RequestForAttestation) : String :=
  let hashes : List (List Nat) := RequestForAttestation.getHashLeaves H r
  let root : List Nat := if hashes.length = 1 then hashes.headI else H.hashBytes hashes.flatten
  H.bytesToHex root

/-- Error text thrown for a tampered claim-owner commitment. -/
def ownerHashErr : String := "Invalid hash for claim owner"

/-- Error text thrown for a tampered schema commitment. -/
def ctypeHashErr : String := "Invalid hash for CTYPE"

/-- Error text thrown when a contents key has no hash-tree entry. -/
def notInTreeErr (key : String) : String :=
  "Property " ++ key ++ " not in claim hash tree"

/-- Error text thrown when an attribute value no longer matches its
nonce-salted hash; it names the offending attribute. -/
def attrHashErr (key : String) : String :=
  "Invalid hash for property " ++ key ++ " in claim hash tree"

/-- Error text thrown by removeClaimProperties for an absent key. -/
def propertyNotFoundErr (key : String) : String :=
  "Property " ++ key ++ " not found in claim"

/-- Owner-hash section of `verifyData`: skipped when the owner is absent or
empty (a falsy value in the source), fatal when present but mismatched. -/
def ownerCheck (H : Crypto) (claimOwner : NonceHash) (owner : Option String) : Except String Unit :=
  match owner with
  | some o =>
      if o ≠ "" then
        if claimOwner.hash ≠ hashNonceValue H claimOwner.nonce (.str o) then .error ownerHashErr
        else .ok ()
      else .ok ()
  | none => .ok ()

/-- Schema-hash section of `verifyData`. -/
def ctypeCheck (H : Crypto) (ctypeHash : NonceHash) (cTypeHash : String) : Except String Unit :=
  if ctypeHash.hash ≠ hashNonceValue H ctypeHash.nonce (.str cTypeHash) then .error ctypeHashErr
  else .ok ()

/-- Per-attribute section of `verifyData`: every remaining contents entry
must have a hash-tree entry whose hash matches the nonce-salted hash of the
current value; the first failure throws. -/
def attrCheck (H : Crypto) (tree : List (String × NonceHash)) : List (String × Value) → Except String Unit
  | [] => .ok ()
  | (key, value) :: rest =>
    match tree.lookup key with
    | none => .error (notInTreeErr key)
    | some hashed =>
      if hashed.hash ≠ hashNonceValue H hashed.nonce value then .error (attrHashErr key)
      else attrCheck H tree rest

/-- `verifyClaimerSignature`: the stored root hash, the claimer signature
and the claim owner address; with the owner redacted away the external
verifier cannot succeed. -/
def RequestForAttestation.verifySignature (H : Crypto) (r : RequestForAttestation) : Bool :=
  match r.claim.owner with
  | some o => H.verifySig r.rootHash r.claimerSignature o
  | none => false

mutual

/-- `verifyData` from RequestForAttestation.ts: soft-false on root-hash
mismatch, fatal errors for owner/schema/attribute commitment mismatches,
recursive legitimation verification, then the signature check. -/
def RequestForAttestation.verifyData (H : Crypto) (r : RequestForAttestation) : Except String Bool :=
  match r with
  | rr@(.mk _ _ _ _ legs _ _ _) =>
    if rr.rootHash ≠ RequestForAttestation.calculateRootHash H rr then .ok false
    else
      match ownerCheck H rr.claimOwner rr.claim.owner with
      | .error e => .error e
      | .ok _ =>
        match ctypeCheck H rr.ctypeHash rr.claim.cTypeHash with
        | .error e => .error e
        | .ok _ =>
          match attrCheck H rr.claimHashTree rr.claim.contents with
          | .error e => .error e
          | .ok _ =>
            match legitimationsValid H true legs with
            | .error e => .error e
            | .ok valid =>
              if !valid then .ok false
              else .ok (RequestForAttestation.verifySignature H rr)
termination_by structural r

/-- The legitimation loop of `verifyData`: `valid = valid && leg.verifyData()`
with JS short-circuiting, so once `valid` is false later legitimations are
no longer inspected (and can no longer throw). -/
def legitimationsValid (H : Crypto) (valid : Bool) (l : List (RequestForAttestation × Attestation)) : Except String Bool :=
  match l with
  | [] => .ok valid
  | (req, att) :: rest =>
    if valid then
      match RequestForAttestation.verifyData H req with
      | .error e => .error e
      | .ok v => legitimationsValid H (valid && (v && (req.rootHash == att.claimHash))) rest
    else legitimationsValid H valid rest
termination_by structural l

end

/-- `AttestedClaim.verifyData`: the request data must verify and the stored
root hash must equal the attestation claimHash; errors thrown by the
request check propagate. -/
def AttestedClaim.verifyData (H : Crypto) (ac : AttestedClaim) : Except String Bool :=
  match RequestForAttestation.verifyData H ac.1 with
  | .error e => .error e
  | .ok v => .ok (v && (ac.1.rootHash == ac.2.claimHash))

/-- `Attestation.isAttestationValid`: the queried record exists, has the
same owner as this attestation, and is not revoked. -/
def Attestation.isAttestationValid (self : Attestation) (attestation : Option Attestation) : Bool :=
  match attestation with
  | none => false
  | some a => a.owner == self.owner && !a.revoked

/-- `Attestation.verify` with the ledger query result made explicit: the
source queries the chain for the claim hash and resolves with
`isAttestationValid` on the result (false, never a throw, on absence or
revocation). -/
def Attestation.verifyWith (self : Attestation) (queryResult : Option Attestation) : Bool :=
  Attestation.isAttestationValid self queryResult

/-- `AttestedClaim.verify` with the ledger query result made explicit.
The source reads `if (!this.verifyData()) \x7b Promise.resolve(false) \x7d`
without returning that promise, so the local data-check result is computed
(and its thrown errors propagate) but its boolean is discarded, and the
resolved value is always `attestation.verify()`. -/
def AttestedClaim.verify (H : Crypto) (ac : AttestedClaim) (queryResult : Option Attestation) : Except String Bool :=
  match AttestedClaim.verifyData H ac with
  | .error e => .error e
  | .ok _ => .ok (Attestation.verifyWith ac.2 queryResult)

/-- Delete the nonce of the hash-tree entry for `key` (the hash remains),
leaving other entries untouched. -/
def stripNonceAt (key : String) (p : String × NonceHash) : String × NonceHash :=
  if p.1 = key then (p.1, ⟨none, p.2.hash⟩) else p

/-- One step of `removeClaimProperties`: delete the attribute value from the
claim contents and the nonce from its hash-tree entry; the entry itself and
its hash remain. -/
def RequestForAttestation.removeKey (r : RequestForAttestation) (key : String) : RequestForAttestation :=
  match r with
  | .mk claim claimOwner ctypeHash tree legs delegationId rootHash sig =>
    .mk { claim with contents := claim.contents.filter (fun p => p.1 != key) }
        claimOwner ctypeHash
        (tree.map (stripNonceAt key))
        legs delegationId rootHash sig

/-- `removeClaimProperties`: for each key in order, throw if the hash tree
has no entry for it (a falsy lookup), otherwise delete the value and the
nonce; the stored root hash is never touched. -/
def RequestForAttestation.removeClaimProperties (r : RequestForAttestation) (props : List String) : Except String RequestForAttestation :=
  match props with
  | [] => .ok r
  | key :: rest =>
    match r.claimHashTree.lookup key with
    | none => .error (propertyNotFoundErr key)
    | some _ => RequestForAttestation.removeClaimProperties (RequestForAttestation.removeKey r key) rest

/-- `removeClaimOwner`: delete the claim owner and the owner-commitment
nonce (the owner-commitment hash remains). -/
def RequestForAttestation.removeClaimOwner (r : RequestForAttestation) : RequestForAttestation :=
  match r with
  | .mk claim claimOwner ctypeHash tree legs delegationId rootHash sig =>
    .mk { claim with owner := none } { claimOwner with nonce := none }
        ctypeHash tree legs delegationId rootHash sig

/-- Delegation permissions (src/types/Delegation). -/
inductive Permission : Type where
  | attest : Permission
  | delegate : Permission
deriving DecidableEq

/-- Bit flag of a permission: Attest = 1, Delegate = 2. -/
def permissionBit : Permission → Nat
  | .attest => 1
  | .delegate => 2

/-- Modelled from the spec: `permissionsAsBitset` of DelegationNode.utils is
not under src/ (only its callers and its test are); the spec fixes it as the
permission bit flags OR-ed into a fixed-width 4-byte little-endian buffer. -/
def permissionsAsBitset (perms : List Permission) : List Nat :=
  let v : Nat := perms.foldl (fun acc p => acc ||| permissionBit p) 0
  [v % 256, v / 256 % 256, v / 256 ^ 2 % 256, v / 256 ^ 3 % 256]

/-- A delegation child node (src/delegation/DelegationNode.ts). -/
structure DelegationNode where
  id : String
  rootId : String
  account : String
  permissions : List Permission
  parentId : Option String

/-- `DelegationNode.generateHash`: bytes of id and rootId, then the parentId
only when it is truthy and differs from the rootId, then the permissions
bitset; the digest of the concatenation, as hex. -/
def DelegationNode.generateHash (H : Crypto) (n : DelegationNode) : String :=
  let propsToHash : List String :=
    [n.id, n.rootId] ++
      (match n.parentId with
       | some p => if p ≠ "" ∧ p ≠ n.rootId then [p] else []
       | none => [])
  let uint8Props : List (List Nat) := propsToHash.map H.toBytes ++ [permissionsAsBitset n.permissions]
  H.bytesToHex (H.hashBytes uint8Props.flatten)

/-- The wire form of an encrypted message (src messaging module). -/
structure EncryptedMessage where
  message : String
  nonce : String
  createdAt : Nat
  hash : String
  signature : String
  receiverAddress : String
  senderAddress : String
  senderBoxPublicKey : String
deriving DecidableEq

/-- The decrypted message a receiver reconstructs (body kept as its raw
parsed-JSON payload string). -/
structure DecodedMessage where
  body : String
  createdAt : Nat
  receiverAddress : String
  senderAddress : String
  senderBoxPublicKey : String
deriving DecidableEq

/-- Error text for a hash mismatch on a received message. -/
def msgHashErr : String := "Hash of message not correct"

/-- Error text for a signature mismatch on a received message. -/
def msgSignatureErr : String := "Signature of message not correct"

/-- Error text for a failed decryption of a received message. -/
def msgDecodingErr : String := "Error decoding message"

/-- Error text for an unparseable decrypted message body. -/
def msgParsingErr : String := "Error parsing message body"

/-- `Message.ensureHashAndSignature`: recompute the digest of
ciphertext ++ nonce ++ createdAt and compare, then verify the signature of
that hash against the sender address; each failure throws its own error. -/
def ensureHashAndSignature (H : Crypto) (encrypted : EncryptedMessage) (senderAddress : String) : Except String Unit :=
  let hashInput : String := encrypted.message ++ encrypted.nonce ++ toString encrypted.createdAt
  let h : String := H.hashStr hashInput
  if h ≠ encrypted.hash then .error msgHashErr
  else if !(H.verifySig h encrypted.signature senderAddress) then .error msgSignatureErr
  else .ok ()

/-- `Message.createFromEncryptedMessage`: hash and signature are checked
first; only then is the box decrypted with the receiver keys and the body
parsed, each with its own distinct error. -/
def createFromEncryptedMessage (H : Crypto) (encrypted : EncryptedMessage) : Except String DecodedMessage :=
  match ensureHashAndSignature H encrypted encrypted.senderAddress with
  | .error e => .error e
  | .ok _ =>
    match H.decryptAsym encrypted.message encrypted.nonce encrypted.senderBoxPublicKey with
    | none => .error msgDecodingErr
    | some decoded =>
      match H.parseJson decoded with
      | none => .error msgParsingErr
      | some body =>
        .ok { body := body
              createdAt := encrypted.createdAt
              receiverAddress := encrypted.receiverAddress
              senderAddress := encrypted.senderAddress
              senderBoxPublicKey := encrypted.senderBoxPublicKey }

@[simp] theorem RequestForAttestation.claim_mk (c : Claim) (co ct : NonceHash) (t : List (String × NonceHash)) (l : List (RequestForAttestation × Attestation)) (d : Option String) (rh s : String) : (RequestForAttestation.mk c co ct t l d rh s).claim = c := rfl

@[simp] theorem RequestForAttestation.claimOwner_mk (c : Claim) (co ct : NonceHash) (t : List (String × NonceHash)) (l : List (RequestForAttestation × Attestation)) (d : Option String) (rh s : String) : (RequestForAttestation.mk c co ct t l d rh s).claimOwner = co := rfl

@[simp] theorem RequestForAttestation.ctypeHash_mk (c : Claim) (co ct : NonceHash) (t : List (String × NonceHash)) (l : List (RequestForAttestation × Attestation)) (d : Option String) (rh s : String) : (RequestForAttestation.mk c co ct t l d rh s).ctypeHash = ct := rfl

@[simp] theorem RequestForAttestation.claimHashTree_mk (c : Claim) (co ct : NonceHash) (t : List (String × NonceHash)) (l : List (RequestForAttestation × Attestation)) (d : Option String) (rh s : String) : (RequestForAttestation.mk c co ct t l d rh s).claimHashTree = t := rfl

@[simp] theorem RequestForAttestation.legitimations_mk (c : Claim) (co ct : NonceHash) (t : List (String × NonceHash)) (l : List (RequestForAttestation × Attestation)) (d : Option String) (rh s : String) : (RequestForAttestation.mk c co ct t l d rh s).legitimations = l := rfl

@[simp] theorem RequestForAttestation.delegationId_mk (c : Claim) (co ct : NonceHash) (t : List (String × NonceHash)) (l : List (RequestForAttestation × Attestation)) (d : Option String) (rh s : String) : (RequestForAttestation.mk c co ct t l d rh s).delegationId = d := rfl

@[simp] theorem RequestForAttestation.rootHash_mk (c : Claim) (co ct : NonceHash) (t : List (String × NonceHash)) (l : List (RequestForAttestation × Attestation)) (d : Option String) (rh s : String) : (RequestForAttestation.mk c co ct t l d rh s).rootHash = rh := rfl

@[simp] theorem RequestForAttestation.claimerSignature_mk (c : Claim) (co ct : NonceHash) (t : List (String × NonceHash)) (l : List (RequestForAttestation × Attestation)) (d : Option String) (rh s : String) : (RequestForAttestation.mk c co ct t l d rh s).claimerSignature = s := rfl

/-- One-step unfolding of `verifyData` in terms of its section checks. -/
theorem verifyData_unfold (H : Crypto) (r : RequestForAttestation) :
    RequestForAttestation.verifyData H r =
      if r.rootHash ≠ RequestForAttestation.calculateRootHash H r then .ok false
      else
        match ownerCheck H r.claimOwner r.claim.owner with
        | .error e => .error e
        | .ok _ =>
          match ctypeCheck H r.ctypeHash r.claim.cTypeHash with
          | .error e => .error e
          | .ok _ =>
            match attrCheck H r.claimHashTree r.claim.contents with
            | .error e => .error e
            | .ok _ =>
              match legitimationsValid H true r.legitimations with
              | .error e => .error e
              | .ok valid =>
                if !valid then .ok false
                else .ok (RequestForAttestation.verifySignature H r) := by
  cases r
  rfl

/-- Every section of `verifyData` passed whenever it returned `.ok true`. -/
theorem verifyData_ok_true (H : Crypto) (r : RequestForAttestation)
    (h : RequestForAttestation.verifyData H r = .ok true) :
    r.rootHash = RequestForAttestation.calculateRootHash H r
    ∧ ownerCheck H r.claimOwner r.claim.owner = .ok ()
    ∧ ctypeCheck H r.ctypeHash r.claim.cTypeHash = .ok ()
    ∧ attrCheck H r.claimHashTree r.claim.contents = .ok ()
    ∧ legitimationsValid H true r.legitimations = .ok true
    ∧ RequestForAttestation.verifySignature H r = true := by
  rw [verifyData_unfold] at h
  by_cases hroot : r.rootHash = RequestForAttestation.calculateRootHash H r
  · simp only [hroot, ne_eq, not_true_eq_false, if_false, ite_false] at h
    refine ⟨hroot, ?_⟩
    rcases h1 : ownerCheck H r.claimOwner r.claim.owner with e | u
    · rw [h1] at h; simp at h
    · rw [h1] at h
      rcases h2 : ctypeCheck H r.ctypeHash r.claim.cTypeHash with e | u2
      · rw [h2] at h; simp at h
      · rw [h2] at h
        rcases h3 : attrCheck H r.claimHashTree r.claim.contents with e | u3
        · rw [h3] at h; simp at h
        · rw [h3] at h
          rcases h4 : legitimationsValid H true r.legitimations with e | valid
          · rw [h4] at h; simp at h
          · rw [h4] at h
            cases valid with
            | false => simp at h
            | true =>
              simp only [Bool.not_true, if_false, ite_false, Except.ok.injEq] at h
              cases u; cases u2; cases u3
              refine ⟨rfl, rfl, rfl, rfl, ?_⟩
              simpa using h
  · simp only [hroot, ne_eq, not_false_eq_true, if_true, ite_true] at h
    exact absurd h (by simp)

/-- A concrete instantiation of the external crypto interface, used to
evaluate the embedding on closed inputs: hashing is the identity, byte
conversion is character-code based, signatures always verify, decryption
returns the box and parsing succeeds. -/
def idCrypto : Crypto where
  hashStr := fun s => s
  hashBytes := fun l => l
  toBytes := fun s => s.toList.map Char.toNat
  bytesToHex := fun l => String.mk (l.map Char.ofNat)
  verifySig := fun _ _ _ => true
  decryptAsym := fun b _ _ => some b
  parseJson := fun s => some s

/-- The claim used by the concrete committed request: schema hash `ct`,
owner `alice`, attributes a, b, c. -/
def wClaim : Claim :=
  ⟨"ct", some "alice", [("a", .str "va"), ("b", .num 7), ("c", .bool true)]⟩

/-- The attribute hash tree of the concrete committed request. -/
def wTree : List (String × NonceHash) :=
  [("a", ⟨some "na", hashNonceValue idCrypto (some "na") (.str "va")⟩),
   ("b", ⟨some "nb", hashNonceValue idCrypto (some "nb") (.num 7)⟩),
   ("c", ⟨some "nc", hashNonceValue idCrypto (some "nc") (.bool true)⟩)]

/-- Owner commitment of the concrete committed request. -/
def wOwner : NonceHash := ⟨some "no", hashNonceValue idCrypto (some "no") (.str "alice")⟩

/-- Schema commitment of the concrete committed request. -/
def wCtype : NonceHash := ⟨some "nt", hashNonceValue idCrypto (some "nt") (.str "ct")⟩

/-- The concrete request before its root hash is filled in. -/
def wR0 : RequestForAttestation := .mk wClaim wOwner wCtype wTree [] none "" "sig"

/-- A concrete committed request over `idCrypto` (root hash stored as
computed at construction, as the source constructor does). -/
def wRfa : RequestForAttestation :=
  .mk wClaim wOwner wCtype wTree [] none
    (RequestForAttestation.calculateRootHash idCrypto wR0) "sig"

/-- Conversely, `verifyData` returns `.ok true` when every section passes. -/
theorem verifyData_of_checks (H : Crypto) (r : RequestForAttestation)
    (h1 : r.rootHash = RequestForAttestation.calculateRootHash H r)
    (h2 : ownerCheck H r.claimOwner r.claim.owner = .ok ())
    (h3 : ctypeCheck H r.ctypeHash r.claim.cTypeHash = .ok ())
    (h4 : attrCheck H r.claimHashTree r.claim.contents = .ok ())
    (h5 : legitimationsValid H true r.legitimations = .ok true)
    (h6 : RequestForAttestation.verifySignature H r = true) :
    RequestForAttestation.verifyData H r = .ok true := by
  rw [verifyData_unfold, h2, h3, h4, h5, h6]
  simp [h1]

/-- C1: the claim says `AttestedClaim.verify()` short-circuits to false,
without a ledger query, whenever `verifyData()` is false.  The source
evaluates `verifyData()` but drops the `Promise.resolve(false)` (no
`return`), so on this credential, whose local data check is false because
its stored root hash is tampered, `verify()` still resolves with the
ledger answer `true`. -/
theorem C1_missing_return_bug :
    AttestedClaim.verifyData idCrypto
      (RequestForAttestation.mk wClaim wOwner wCtype wTree [] none "tampered" "sig",
       Attestation.mk "tampered" "ct" "attester" false none) = .ok false
    ∧ AttestedClaim.verify idCrypto
        (RequestForAttestation.mk wClaim wOwner wCtype wTree [] none "tampered" "sig",
         Attestation.mk "tampered" "ct" "attester" false none)
        (some (Attestation.mk "tampered" "ct" "attester" false none)) = .ok true :=
  ⟨rfl, rfl⟩

/-- C5: the root hash is always computed via the multi-leaf path — the leaf
list always starts with the owner and schema commitment hashes, so it never
has exactly one leaf — and with an empty attribute tree, no legitimations
and no delegation id the root is the digest of ownerCommit.hash followed by
schemaCommit.hash. -/
theorem C5_root_hash_leaves (H : Crypto) (r : RequestForAttestation) :
    2 ≤ (RequestForAttestation.getHashLeaves H r).length
    ∧ RequestForAttestation.calculateRootHash H r =
        H.bytesToHex (H.hashBytes (RequestForAttestation.getHashLeaves H r).flatten)
    ∧ (r.claimHashTree = [] → r.legitimations = [] → r.delegationId = none →
        RequestForAttestation.calculateRootHash H r =
          H.bytesToHex (H.hashBytes (H.toBytes r.claimOwner.hash ++ H.toBytes r.ctypeHash.hash))) := by
  have hlen : 2 ≤ (RequestForAttestation.getHashLeaves H r).length := by
    simp [RequestForAttestation.getHashLeaves]
  have hne : (RequestForAttestation.getHashLeaves H r).length ≠ 1 := by omega
  refine ⟨hlen, ?_, ?_⟩
  · rw [RequestForAttestation.calculateRootHash]
    simp [hne]
  · intro ht hl hd
    rw [RequestForAttestation.calculateRootHash]
    simp [hne, RequestForAttestation.getHashLeaves, ht, hl, hd]

/-- C5 witness: the multi-leaf shortcut conclusion evaluated on the
concrete request with no attributes, no legitimations and no delegation. -/
theorem C5_root_hash_leaves_witness :
    RequestForAttestation.calculateRootHash idCrypto
        (RequestForAttestation.mk wClaim wOwner wCtype [] [] none "" "sig") =
      idCrypto.bytesToHex (idCrypto.hashBytes
        (idCrypto.toBytes wOwner.hash ++ idCrypto.toBytes wCtype.hash)) :=
  (C5_root_hash_leaves idCrypto
    (RequestForAttestation.mk wClaim wOwner wCtype [] [] none "" "sig")).2.2 rfl rfl rfl

/-- C6: a delegation node hash is the digest of id, rootId, the parentId
only when it is truthy and differs from the rootId, and the 4-byte
little-endian permissions bitset with Attest = 1 and Delegate = 2; in
particular a node whose parentId equals its rootId hashes exactly the same
bytes as a node with no parentId at all. -/
theorem C6_delegation_hash (H : Crypto) (nid rootId account pid : String)
    (perms : List Permission) :
    DelegationNode.generateHash H ⟨nid, rootId, account, perms, some rootId⟩ =
      DelegationNode.generateHash H ⟨nid, rootId, account, perms, none⟩
    ∧ (pid ≠ "" → pid ≠ rootId →
        DelegationNode.generateHash H ⟨nid, rootId, account, perms, some pid⟩ =
          H.bytesToHex (H.hashBytes
            (H.toBytes nid ++ H.toBytes rootId ++ H.toBytes pid ++ permissionsAsBitset perms)))
    ∧ DelegationNode.generateHash H ⟨nid, rootId, account, perms, none⟩ =
        H.bytesToHex (H.hashBytes
          (H.toBytes nid ++ H.toBytes rootId ++ permissionsAsBitset perms))
    ∧ permissionsAsBitset [.attest] = [1, 0, 0, 0]
    ∧ permissionsAsBitset [.delegate] = [2, 0, 0, 0]
    ∧ permissionsAsBitset [.attest, .delegate] = [3, 0, 0, 0]
    ∧ permissionsAsBitset [] = [0, 0, 0, 0] := by
  refine ⟨?_, ?_, ?_, by decide, by decide, by decide, by decide⟩
  · simp [DelegationNode.generateHash]
  · intro h1 h2
    simp [DelegationNode.generateHash, h1, h2]
  · simp [DelegationNode.generateHash]

/-- C6 witness: the parent-equals-root collapse and the explicit digest
shape evaluated on concrete delegation nodes over `idCrypto`. -/
theorem C6_delegation_hash_witness :
    DelegationNode.generateHash idCrypto ⟨"id1", "root1", "acct", [.attest], some "root1"⟩ =
      DelegationNode.generateHash idCrypto ⟨"id1", "root1", "acct", [.attest], none⟩
    ∧ DelegationNode.generateHash idCrypto ⟨"id1", "root1", "acct", [.attest], some "par1"⟩ =
        idCrypto.bytesToHex (idCrypto.hashBytes
          (idCrypto.toBytes "id1" ++ idCrypto.toBytes "root1" ++ idCrypto.toBytes "par1" ++
            permissionsAsBitset [.attest])) :=
  ⟨(C6_delegation_hash idCrypto "id1" "root1" "acct" "par1" [.attest]).1,
   (C6_delegation_hash idCrypto "id1" "root1" "acct" "par1" [.attest]).2.1
     (by decide) (by decide)⟩

/-- C7: the ledger-backed attestation check is true exactly when the
queried record exists, has this attestation owner, and is not revoked; a
missing or revoked record gives false, never an error. -/
theorem C7_attestation_verify (self a : Attestation) (r : Option Attestation) :
    (Attestation.verifyWith self r = true ↔
       ∃ rec, r = some rec ∧ rec.owner = self.owner ∧ rec.revoked = false)
    ∧ Attestation.verifyWith self none = false
    ∧ (a.revoked = true → Attestation.verifyWith self (some a) = false) := by
  refine ⟨?_, rfl, ?_⟩
  · cases r with
    | none => simp [Attestation.verifyWith, Attestation.isAttestationValid]
    | some rec =>
      simp [Attestation.verifyWith, Attestation.isAttestationValid]
  · intro hrev
    simp [Attestation.verifyWith, Attestation.isAttestationValid, hrev]

/-- C7 witness: a present, owner-matching, un-revoked record verifies; a
revoked one does not. -/
theorem C7_attestation_verify_witness :
    Attestation.verifyWith (Attestation.mk "h1" "ct" "owner1" false none)
      (some (Attestation.mk "h1" "ct" "owner1" false none)) = true
    ∧ Attestation.verifyWith (Attestation.mk "h1" "ct" "owner1" false none)
        (some (Attestation.mk "h1" "ct" "owner1" true none)) = false :=
  ⟨(C7_attestation_verify (Attestation.mk "h1" "ct" "owner1" false none)
      (Attestation.mk "h1" "ct" "owner1" true none)
      (some (Attestation.mk "h1" "ct" "owner1" false none))).1.mpr
     ⟨Attestation.mk "h1" "ct" "owner1" false none, rfl, rfl, rfl⟩,
   (C7_attestation_verify (Attestation.mk "h1" "ct" "owner1" false none)
      (Attestation.mk "h1" "ct" "owner1" true none)
      (some (Attestation.mk "h1" "ct" "owner1" false none))).2.2 rfl⟩

/-- C9: the receiver recomputes the digest of ciphertext, nonce and
timestamp and verifies the signature before any decryption (the error of a
failing hash or signature check does not depend on the decryption or
parsing functions at all), decryption and body-parse failures throw their
own errors, and all four error messages are pairwise distinct. -/
theorem C9_message_checks (H : Crypto) (e : EncryptedMessage) :
    (∀ D P, H.hashStr (e.message ++ e.nonce ++ toString e.createdAt) ≠ e.hash →
       createFromEncryptedMessage
         { H with decryptAsym := D, parseJson := P } e = .error msgHashErr)
    ∧ (∀ D P, H.hashStr (e.message ++ e.nonce ++ toString e.createdAt) = e.hash →
       H.verifySig e.hash e.signature e.senderAddress = false →
       createFromEncryptedMessage
         { H with decryptAsym := D, parseJson := P } e = .error msgSignatureErr)
    ∧ (ensureHashAndSignature H e e.senderAddress = .ok () →
       H.decryptAsym e.message e.nonce e.senderBoxPublicKey = none →
       createFromEncryptedMessage H e = .error msgDecodingErr)
    ∧ (∀ d, ensureHashAndSignature H e e.senderAddress = .ok () →
       H.decryptAsym e.message e.nonce e.senderBoxPublicKey = some d →
       H.parseJson d = none →
       createFromEncryptedMessage H e = .error msgParsingErr)
    ∧ (msgHashErr ≠ msgSignatureErr ∧ msgHashErr ≠ msgDecodingErr
       ∧ msgHashErr ≠ msgParsingErr ∧ msgSignatureErr ≠ msgDecodingErr
       ∧ msgSignatureErr ≠ msgParsingErr ∧ msgDecodingErr ≠ msgParsingErr) := by
  refine ⟨?_, ?_, ?_, ?_, by decide, by decide, by decide, by decide, by decide, by decide⟩
  · intro D P hne
    rw [createFromEncryptedMessage, ensureHashAndSignature]
    simp only
    rw [if_pos hne]
  · intro D P heq hsig
    rw [createFromEncryptedMessage, ensureHashAndSignature]
    simp only
    rw [if_neg (by simp [heq]), heq, hsig]
    simp
  · intro hok hdec
    rw [createFromEncryptedMessage, hok, hdec]
  · intro d hok hdec hparse
    rw [createFromEncryptedMessage, hok, hdec]
    simp [hparse]

/-- A crypto instance whose signature verification always fails. -/
def sigFailCrypto : Crypto := { idCrypto with verifySig := fun _ _ _ => false }

/-- A crypto instance whose asymmetric decryption always fails. -/
def decFailCrypto : Crypto := { idCrypto with decryptAsym := fun _ _ _ => none }

/-- A crypto instance whose JSON body parsing always fails. -/
def parseFailCrypto : Crypto := { idCrypto with parseJson := fun _ => none }

/-- C9 witness: each of the four failure modes evaluated on concrete
messages (over `idCrypto` the recomputed hash is ciphertext ++ nonce ++
timestamp itself). -/
theorem C9_message_checks_witness :
    createFromEncryptedMessage idCrypto
      (EncryptedMessage.mk "m" "n" 1 "wrong" "s" "rcv" "snd" "pk") = .error msgHashErr
    ∧ createFromEncryptedMessage sigFailCrypto
        (EncryptedMessage.mk "m" "n" 1 "mn1" "s" "rcv" "snd" "pk") = .error msgSignatureErr
    ∧ createFromEncryptedMessage decFailCrypto
        (EncryptedMessage.mk "m" "n" 1 "mn1" "s" "rcv" "snd" "pk") = .error msgDecodingErr
    ∧ createFromEncryptedMessage parseFailCrypto
        (EncryptedMessage.mk "m" "n" 1 "mn1" "s" "rcv" "snd" "pk") = .error msgParsingErr := by
  refine ⟨?_, ?_, ?_, ?_⟩
  · have h := (C9_message_checks idCrypto
      (EncryptedMessage.mk "m" "n" 1 "wrong" "s" "rcv" "snd" "pk")).1
      idCrypto.decryptAsym idCrypto.parseJson (by decide)
    simpa using h
  · have h := (C9_message_checks sigFailCrypto
      (EncryptedMessage.mk "m" "n" 1 "mn1" "s" "rcv" "snd" "pk")).2.1
      sigFailCrypto.decryptAsym sigFailCrypto.parseJson (by decide) rfl
    simpa using h
  · exact (C9_message_checks decFailCrypto
      (EncryptedMessage.mk "m" "n" 1 "mn1" "s" "rcv" "snd" "pk")).2.2.1 rfl rfl
  · exact (C9_message_checks parseFailCrypto
      (EncryptedMessage.mk "m" "n" 1 "mn1" "s" "rcv" "snd" "pk")).2.2.2.1 "m" rfl rfl rfl

/-- Replace the value of every contents entry with key `key` (the model of
tampering with, or substituting, a committed attribute value). -/
def RequestForAttestation.replaceContentValue (r : RequestForAttestation) (key : String) (v : Value) : RequestForAttestation :=
  match r with
  | .mk claim claimOwner ctypeHash tree legs delegationId rootHash sig =>
    .mk { claim with
          contents := claim.contents.map (fun p => if p.1 = key then (p.1, v) else p) }
        claimOwner ctypeHash tree legs delegationId rootHash sig

@[simp] theorem removeKey_claimOwner (r : RequestForAttestation) (k : String) :
    (r.removeKey k).claimOwner = r.claimOwner := by cases r; rfl

@[simp] theorem removeKey_ctypeHash (r : RequestForAttestation) (k : String) :
    (r.removeKey k).ctypeHash = r.ctypeHash := by cases r; rfl

@[simp] theorem removeKey_rootHash (r : RequestForAttestation) (k : String) :
    (r.removeKey k).rootHash = r.rootHash := by cases r; rfl

@[simp] theorem removeKey_claimerSignature (r : RequestForAttestation) (k : String) :
    (r.removeKey k).claimerSignature = r.claimerSignature := by cases r; rfl

@[simp] theorem removeKey_legitimations (r : RequestForAttestation) (k : String) :
    (r.removeKey k).legitimations = r.legitimations := by cases r; rfl

@[simp] theorem removeKey_delegationId (r : RequestForAttestation) (k : String) :
    (r.removeKey k).delegationId = r.delegationId := by cases r; rfl

@[simp] theorem removeKey_claim_owner (r : RequestForAttestation) (k : String) :
    (r.removeKey k).claim.owner = r.claim.owner := by cases r; rfl

@[simp] theorem removeKey_claim_cTypeHash (r : RequestForAttestation) (k : String) :
    (r.removeKey k).claim.cTypeHash = r.claim.cTypeHash := by cases r; rfl

@[simp] theorem removeKey_claim_contents (r : RequestForAttestation) (k : String) :
    (r.removeKey k).claim.contents = r.claim.contents.filter (fun p => p.1 != k) := by
  cases r; rfl

@[simp] theorem removeKey_claimHashTree (r : RequestForAttestation) (k : String) :
    (r.removeKey k).claimHashTree = r.claimHashTree.map (stripNonceAt k) := by cases r; rfl

@[simp] theorem replaceContentValue_claimOwner (r : RequestForAttestation) (k : String) (v : Value) :
    (r.replaceContentValue k v).claimOwner = r.claimOwner := by cases r; rfl

@[simp] theorem replaceContentValue_ctypeHash (r : RequestForAttestation) (k : String) (v : Value) :
    (r.replaceContentValue k v).ctypeHash = r.ctypeHash := by cases r; rfl

@[simp] theorem replaceContentValue_rootHash (r : RequestForAttestation) (k : String) (v : Value) :
    (r.replaceContentValue k v).rootHash = r.rootHash := by cases r; rfl

@[simp] theorem replaceContentValue_claimerSignature (r : RequestForAttestation) (k : String) (v : Value) :
    (r.replaceContentValue k v).claimerSignature = r.claimerSignature := by cases r; rfl

@[simp] theorem replaceContentValue_legitimations (r : RequestForAttestation) (k : String) (v : Value) :
    (r.replaceContentValue k v).legitimations = r.legitimations := by cases r; rfl

@[simp] theorem replaceContentValue_delegationId (r : RequestForAttestation) (k : String) (v : Value) :
    (r.replaceContentValue k v).delegationId = r.delegationId := by cases r; rfl

@[simp] theorem replaceContentValue_claim_owner (r : RequestForAttestation) (k : String) (v : Value) :
    (r.replaceContentValue k v).claim.owner = r.claim.owner := by cases r; rfl

@[simp] theorem replaceContentValue_claim_cTypeHash (r : RequestForAttestation) (k : String) (v : Value) :
    (r.replaceContentValue k v).claim.cTypeHash = r.claim.cTypeHash := by cases r; rfl

@[simp] theorem replaceContentValue_claim_contents (r : RequestForAttestation) (k : String) (v : Value) :
    (r.replaceContentValue k v).claim.contents =
      r.claim.contents.map (fun p => if p.1 = k then (p.1, v) else p) := by cases r; rfl

@[simp] theorem replaceContentValue_claimHashTree (r : RequestForAttestation) (k : String) (v : Value) :
    (r.replaceContentValue k v).claimHashTree = r.claimHashTree := by cases r; rfl

/-- Stripping nonces preserves every hash-tree leaf. -/
theorem map_stripNonceAt_hash (H : Crypto) (t : List (String × NonceHash)) (k : String) :
    (t.map (stripNonceAt k)).map (fun p => H.toBytes p.2.hash) =
      t.map (fun p => H.toBytes p.2.hash) := by
  rw [List.map_map]
  apply List.map_congr_left
  intro p _
  by_cases h : p.1 = k <;> simp [stripNonceAt, h]

/-- Redaction does not change the computed hash leaves. -/
theorem getHashLeaves_removeKey (H : Crypto) (r : RequestForAttestation) (k : String) :
    RequestForAttestation.getHashLeaves H (r.removeKey k) =
      RequestForAttestation.getHashLeaves H r := by
  rw [RequestForAttestation.getHashLeaves, RequestForAttestation.getHashLeaves]
  simp only [removeKey_claimOwner, removeKey_ctypeHash, removeKey_claimHashTree,
    removeKey_legitimations, removeKey_delegationId]
  rw [map_stripNonceAt_hash]

/-- Redaction does not change the recomputed root hash. -/
theorem calculateRootHash_removeKey (H : Crypto) (r : RequestForAttestation) (k : String) :
    RequestForAttestation.calculateRootHash H (r.removeKey k) =
      RequestForAttestation.calculateRootHash H r := by
  rw [RequestForAttestation.calculateRootHash, RequestForAttestation.calculateRootHash,
    getHashLeaves_removeKey]

/-- Replacing attribute values does not change the hash leaves (the root
is computed from the hash-tree entries, not the values). -/
theorem getHashLeaves_replaceContentValue (H : Crypto) (r : RequestForAttestation) (k : String) (v : Value) :
    RequestForAttestation.getHashLeaves H (r.replaceContentValue k v) =
      RequestForAttestation.getHashLeaves H r := by
  rw [RequestForAttestation.getHashLeaves, RequestForAttestation.getHashLeaves]
  simp only [replaceContentValue_claimOwner, replaceContentValue_ctypeHash,
    replaceContentValue_claimHashTree, replaceContentValue_legitimations,
    replaceContentValue_delegationId]

/-- Replacing attribute values does not change the recomputed root hash. -/
theorem calculateRootHash_replaceContentValue (H : Crypto) (r : RequestForAttestation) (k : String) (v : Value) :
    RequestForAttestation.calculateRootHash H (r.replaceContentValue k v) =
      RequestForAttestation.calculateRootHash H r := by
  rw [RequestForAttestation.calculateRootHash, RequestForAttestation.calculateRootHash,
    getHashLeaves_replaceContentValue]


@[simp] theorem stripNonceAt_self (k : String) (nh : NonceHash) :
    stripNonceAt k (k, nh) = (k, ⟨none, nh.hash⟩) := by
  rw [stripNonceAt]
  simp

theorem stripNonceAt_of_ne (k a : String) (nh : NonceHash) (h : a ≠ k) :
    stripNonceAt k (a, nh) = (a, nh) := by
  rw [stripNonceAt]
  simp [h]

/-- After filtering a key out of the contents, lookup for it fails. -/
theorem lookup_filter_self (contents : List (String × Value)) (k : String) :
    (contents.filter (fun p => p.1 != k)).lookup k = none := by
  induction contents with
  | nil => rfl
  | cons p rest ih =>
    obtain ⟨a, v⟩ := p
    by_cases h : a = k
    · subst h
      simp [List.filter_cons, ih]
    · have hb : (k == a) = false := by simp [Ne.symm h]
      simp [List.filter_cons, h, List.lookup, hb, ih]

/-- Nonce stripping at one key leaves lookups of other keys unchanged. -/
theorem lookup_map_stripNonceAt_ne (tree : List (String × NonceHash)) (k k' : String)
    (h : k' ≠ k) :
    (tree.map (stripNonceAt k)).lookup k' = tree.lookup k' := by
  induction tree with
  | nil => rfl
  | cons p rest ih =>
    obtain ⟨a, nh⟩ := p
    by_cases ha : a = k
    · subst ha
      have hk : (k' == a) = false := by simp [h]
      rw [List.map_cons, stripNonceAt_self, List.lookup_cons, List.lookup_cons, hk]
      exact ih
    · rw [List.map_cons, stripNonceAt_of_ne _ _ _ ha]
      by_cases hk : k' = a
      · subst hk
        simp [List.lookup]
      · have hk' : (k' == a) = false := by simp [hk]
        simp [List.lookup, hk', ih]

/-- Nonce stripping at a present key keeps the entry, drops its nonce and
keeps its hash. -/
theorem lookup_map_stripNonceAt_eq (tree : List (String × NonceHash)) (k : String)
    (nh : NonceHash) (h : tree.lookup k = some nh) :
    (tree.map (stripNonceAt k)).lookup k = some ⟨none, nh.hash⟩ := by
  induction tree with
  | nil => simp [List.lookup] at h
  | cons p rest ih =>
    obtain ⟨a, nh'⟩ := p
    by_cases ha : a = k
    · subst ha
      rw [List.lookup, beq_self_eq_true] at h
      simp only [Option.some.injEq] at h
      subst h
      rw [List.map_cons, stripNonceAt_self, List.lookup_cons, beq_self_eq_true]
    · have ha' : (k == a) = false := by simp [Ne.symm ha]
      rw [List.lookup, ha'] at h
      rw [List.map_cons, stripNonceAt_of_ne _ _ _ ha, List.lookup, ha']
      exact ih h

/-- A number and its decimal string form produce the same salted hash. -/
theorem hashNonceValue_num_str (H : Crypto) (nonce : Option String) (n : Int) :
    hashNonceValue H nonce (.str (intToString n)) = hashNonceValue H nonce (.num n) := rfl

/-- If every remaining attribute check passed, it still passes after
redacting one key: the key's entries are gone from the contents and the
other keys' tree entries are untouched. -/
theorem attrCheck_remove (H : Crypto) (tree : List (String × NonceHash)) (k : String)
    (contents : List (String × Value))
    (hok : attrCheck H tree contents = .ok ()) :
    attrCheck H (tree.map (stripNonceAt k)) (contents.filter (fun p => p.1 != k)) = .ok () := by
  induction contents with
  | nil => rfl
  | cons p rest ih =>
    obtain ⟨a, v⟩ := p
    rw [attrCheck] at hok
    cases hla : tree.lookup a with
    | none =>
      simp only [hla] at hok
      exact absurd hok (by simp)
    | some nh =>
      simp only [hla] at hok
      by_cases hh : nh.hash ≠ hashNonceValue H nh.nonce v
      · rw [if_pos hh] at hok; exact absurd hok (by simp)
      · rw [if_neg hh] at hok
        by_cases ha : a = k
        · subst ha
          have hfl : List.filter (fun p => p.1 != a) ((a, v) :: rest) =
              List.filter (fun p => p.1 != a) rest := by
            simp [List.filter_cons]
          rw [hfl]
          exact ih hok
        · have hfl : List.filter (fun p => p.1 != k) ((a, v) :: rest) =
              (a, v) :: List.filter (fun p => p.1 != k) rest := by
            simp [List.filter_cons, ha]
          rw [hfl, attrCheck, lookup_map_stripNonceAt_ne tree k a ha]
          simp only [hla]
          rw [if_neg hh]
          exact ih hok

/-- Tampering with the value at a present key makes the attribute check
throw the error naming that key (entries before it still pass). -/
theorem attrCheck_tamper (H : Crypto) (tree : List (String × NonceHash)) (k : String)
    (v' : Value) (nh : NonceHash) (contents : List (String × Value)) (v0 : Value)
    (hok : attrCheck H tree contents = .ok ())
    (hlk : tree.lookup k = some nh)
    (hk : contents.lookup k = some v0)
    (hbad : hashNonceValue H nh.nonce v' ≠ nh.hash) :
    attrCheck H tree (contents.map (fun p => if p.1 = k then (p.1, v') else p)) =
      .error (attrHashErr k) := by
  induction contents with
  | nil => simp [List.lookup] at hk
  | cons p rest ih =>
    obtain ⟨a, v⟩ := p
    rw [attrCheck] at hok
    cases hla : tree.lookup a with
    | none =>
      simp only [hla] at hok
      exact absurd hok (by simp)
    | some nha =>
      simp only [hla] at hok
      by_cases hh : nha.hash ≠ hashNonceValue H nha.nonce v
      · rw [if_pos hh] at hok; exact absurd hok (by simp)
      · rw [if_neg hh] at hok
        by_cases ha : a = k
        · subst ha
          rw [List.map_cons, if_pos (rfl : ((a, v) : String × Value).1 = a), attrCheck]
          simp only [hla]
          have hnn : nha = nh := by rw [hla] at hlk; exact Option.some.inj hlk
          subst hnn
          rw [if_pos (Ne.symm hbad)]
        · have hb : (k == a) = false := by simp [Ne.symm ha]
          simp only [List.lookup_cons, hb] at hk
          rw [List.map_cons, if_neg (show ¬ ((a, v) : String × Value).1 = k from ha), attrCheck]
          simp only [hla]
          rw [if_neg hh]
          exact ih hok hk

/-- Replacing a committed numeric value by its decimal string form is
invisible to the attribute check. -/
theorem attrCheck_replace_num (H : Crypto) (tree : List (String × NonceHash)) (k : String)
    (n : Int) (contents : List (String × Value))
    (hval : ∀ v, (k, v) ∈ contents → v = Value.num n) :
    attrCheck H tree
        (contents.map (fun p => if p.1 = k then (p.1, Value.str (intToString n)) else p)) =
      attrCheck H tree contents := by
  induction contents with
  | nil => rfl
  | cons p rest ih =>
    obtain ⟨a, v⟩ := p
    have hrest : ∀ w, (k, w) ∈ rest → w = Value.num n :=
      fun w hw => hval w (List.mem_cons_of_mem _ hw)
    by_cases ha : a = k
    · subst ha
      have hv : v = Value.num n := hval v (List.mem_cons_self _ _)
      subst hv
      rw [List.map_cons,
        if_pos (rfl : ((a, Value.num n) : String × Value).1 = a), attrCheck, attrCheck,
        ih hrest]
      rfl
    · rw [List.map_cons,
        if_neg (show ¬ ((a, v) : String × Value).1 = k from ha), attrCheck, attrCheck,
        ih hrest]

/-- Redaction leaves the signature check unchanged. -/
theorem verifySignature_removeKey (H : Crypto) (r : RequestForAttestation) (k : String) :
    RequestForAttestation.verifySignature H (r.removeKey k) =
      RequestForAttestation.verifySignature H r := by
  rw [RequestForAttestation.verifySignature, RequestForAttestation.verifySignature]
  simp

/-- Value replacement leaves the signature check unchanged. -/
theorem verifySignature_replaceContentValue (H : Crypto) (r : RequestForAttestation) (k : String) (v : Value) :
    RequestForAttestation.verifySignature H (r.replaceContentValue k v) =
      RequestForAttestation.verifySignature H r := by
  rw [RequestForAttestation.verifySignature, RequestForAttestation.verifySignature]
  simp

/-- C2: on a committed request, removing a present key succeeds, leaves the
stored root hash untouched, deletes the contents entry and the tree nonce
while keeping the tree hash, and `verifyData` still returns true. -/
theorem C2_redaction_preserves_root (H : Crypto) (r : RequestForAttestation) (k : String)
    (nh : NonceHash)
    (hver : RequestForAttestation.verifyData H r = .ok true)
    (hlk : r.claimHashTree.lookup k = some nh) :
    RequestForAttestation.removeClaimProperties r [k] = .ok (r.removeKey k)
    ∧ (r.removeKey k).rootHash = r.rootHash
    ∧ (r.removeKey k).claim.contents.lookup k = none
    ∧ (r.removeKey k).claimHashTree.lookup k = some ⟨none, nh.hash⟩
    ∧ RequestForAttestation.verifyData H (r.removeKey k) = .ok true := by
  obtain ⟨h1, h2, h3, h4, h5, h6⟩ := verifyData_ok_true H r hver
  refine ⟨?_, removeKey_rootHash r k, ?_, ?_, ?_⟩
  · rw [RequestForAttestation.removeClaimProperties]
    simp only [hlk]
    rw [RequestForAttestation.removeClaimProperties]
  · rw [removeKey_claim_contents]
    exact lookup_filter_self _ _
  · rw [removeKey_claimHashTree]
    exact lookup_map_stripNonceAt_eq _ _ _ hlk
  · refine verifyData_of_checks H _ ?_ ?_ ?_ ?_ ?_ ?_
    · rw [removeKey_rootHash, calculateRootHash_removeKey]
      exact h1
    · rw [removeKey_claimOwner, removeKey_claim_owner]
      exact h2
    · rw [removeKey_ctypeHash, removeKey_claim_cTypeHash]
      exact h3
    · rw [removeKey_claimHashTree, removeKey_claim_contents]
      exact attrCheck_remove H _ k _ h4
    · rw [removeKey_legitimations]
      exact h5
    · rw [verifySignature_removeKey]
      exact h6

/-- C2 witness: redacting attribute b from the concrete committed request
with attributes a, b, c. -/
theorem C2_redaction_preserves_root_witness :
    RequestForAttestation.removeClaimProperties wRfa ["b"] = .ok (wRfa.removeKey "b")
    ∧ (wRfa.removeKey "b").rootHash = wRfa.rootHash
    ∧ (wRfa.removeKey "b").claim.contents.lookup "b" = none
    ∧ (wRfa.removeKey "b").claimHashTree.lookup "b" =
        some ⟨none, hashNonceValue idCrypto (some "nb") (.num 7)⟩
    ∧ RequestForAttestation.verifyData idCrypto (wRfa.removeKey "b") = .ok true :=
  C2_redaction_preserves_root idCrypto wRfa "b"
    ⟨some "nb", hashNonceValue idCrypto (some "nb") (.num 7)⟩ rfl rfl

/-- C3: on a committed request, substituting a value whose salted hash
differs at a present key makes `verifyData` throw the attribute error
naming that key, while the preceding root-hash comparison still passes
(the recomputed root only reads the tree hashes, not the values). -/
theorem C3_tamper_detection (H : Crypto) (r : RequestForAttestation) (k : String)
    (v' v0 : Value) (nh : NonceHash)
    (hver : RequestForAttestation.verifyData H r = .ok true)
    (hlk : r.claimHashTree.lookup k = some nh)
    (hk : r.claim.contents.lookup k = some v0)
    (hbad : hashNonceValue H nh.nonce v' ≠ nh.hash) :
    RequestForAttestation.verifyData H (r.replaceContentValue k v') = .error (attrHashErr k)
    ∧ (r.replaceContentValue k v').rootHash =
        RequestForAttestation.calculateRootHash H (r.replaceContentValue k v') := by
  obtain ⟨h1, h2, h3, h4, h5, h6⟩ := verifyData_ok_true H r hver
  have hroot : (r.replaceContentValue k v').rootHash =
      RequestForAttestation.calculateRootHash H (r.replaceContentValue k v') := by
    rw [replaceContentValue_rootHash, calculateRootHash_replaceContentValue]
    exact h1
  refine ⟨?_, hroot⟩
  rw [verifyData_unfold, if_neg (not_not_intro hroot)]
  rw [replaceContentValue_claimOwner, replaceContentValue_claim_owner]
  simp only [h2]
  rw [replaceContentValue_ctypeHash, replaceContentValue_claim_cTypeHash]
  simp only [h3]
  rw [replaceContentValue_claimHashTree, replaceContentValue_claim_contents,
    attrCheck_tamper H _ k v' nh _ v0 h4 hlk hk hbad]

/-- C3 witness: substituting value evil for the committed numeric
attribute b of the concrete request. -/
theorem C3_tamper_detection_witness :
    RequestForAttestation.verifyData idCrypto
        (wRfa.replaceContentValue "b" (.str "evil")) = .error (attrHashErr "b")
    ∧ (wRfa.replaceContentValue "b" (.str "evil")).rootHash =
        RequestForAttestation.calculateRootHash idCrypto
          (wRfa.replaceContentValue "b" (.str "evil")) :=
  C3_tamper_detection idCrypto wRfa "b" (.str "evil") (.num 7)
    ⟨some "nb", hashNonceValue idCrypto (some "nb") (.num 7)⟩
    rfl rfl rfl (by decide)

/-- Stripping the nonce at a key twice is the same as stripping it once. -/
theorem stripNonceAt_idem (k : String) (p : String × NonceHash) :
    stripNonceAt k (stripNonceAt k p) = stripNonceAt k p := by
  obtain ⟨a, nh⟩ := p
  by_cases h : a = k
  · subst h
    rw [stripNonceAt_self, stripNonceAt_self]
  · rw [stripNonceAt_of_ne _ _ _ h, stripNonceAt_of_ne _ _ _ h]

/-- Filtering a key out twice is the same as filtering it once. -/
theorem filter_key_idem (l : List (String × Value)) (k : String) :
    (l.filter (fun p => p.1 != k)).filter (fun p => p.1 != k) =
      l.filter (fun p => p.1 != k) := by
  rw [List.filter_filter]
  apply List.filter_congr
  intro x _
  exact Bool.and_self _

/-- Stripping a tree at a key twice is the same as stripping it once. -/
theorem map_strip_idem (t : List (String × NonceHash)) (k : String) :
    (t.map (stripNonceAt k)).map (stripNonceAt k) = t.map (stripNonceAt k) := by
  rw [List.map_map]
  apply List.map_congr_left
  intro p _
  exact stripNonceAt_idem k p

/-- Removing the same key twice produces the same request as removing it
once. -/
theorem removeKey_idem (r : RequestForAttestation) (k : String) :
    (r.removeKey k).removeKey k = r.removeKey k := by
  cases r with
  | mk c co ct t l d rh s =>
    simp only [RequestForAttestation.removeKey]
    rw [filter_key_idem, map_strip_idem]

/-- C4 (amended): removal fails with the property-not-found error exactly
for keys with no hash-tree entry; but a key already removed keeps its
hash-tree entry (only the nonce is gone), so a second removal of the same
key succeeds and is a no-op. -/
theorem C4_removal_behaviour (r : RequestForAttestation) (k : String) :
    (r.claimHashTree.lookup k = none →
      RequestForAttestation.removeClaimProperties r [k] = .error (propertyNotFoundErr k))
    ∧ (∀ nh, r.claimHashTree.lookup k = some nh →
        RequestForAttestation.removeClaimProperties r [k] = .ok (r.removeKey k)
        ∧ RequestForAttestation.removeClaimProperties (r.removeKey k) [k] =
            .ok (r.removeKey k)) := by
  constructor
  · intro h
    rw [RequestForAttestation.removeClaimProperties]
    simp only [h]
  · intro nh h
    constructor
    · rw [RequestForAttestation.removeClaimProperties]
      simp only [h]
      rw [RequestForAttestation.removeClaimProperties]
    · rw [RequestForAttestation.removeClaimProperties]
      simp only [removeKey_claimHashTree]
      simp only [lookup_map_stripNonceAt_eq r.claimHashTree k nh h]
      rw [RequestForAttestation.removeClaimProperties, removeKey_idem]

/-- C4 counterexample to the claim as stated: removing b from the concrete
committed request and then removing b again does not fail - the second
call returns the same request unchanged. -/
theorem C4_second_removal_succeeds :
    RequestForAttestation.removeClaimProperties wRfa ["b"] = .ok (wRfa.removeKey "b")
    ∧ RequestForAttestation.removeClaimProperties (wRfa.removeKey "b") ["b"] =
        .ok (wRfa.removeKey "b") :=
  ⟨rfl, rfl⟩

/-- C4 witness: the amended behaviour on the concrete request - an absent
key fails, a present key is removed, and a second removal is a no-op. -/
theorem C4_removal_behaviour_witness :
    RequestForAttestation.removeClaimProperties wRfa ["zz"] =
        .error (propertyNotFoundErr "zz")
    ∧ RequestForAttestation.removeClaimProperties wRfa ["b"] = .ok (wRfa.removeKey "b")
    ∧ RequestForAttestation.removeClaimProperties (wRfa.removeKey "b") ["b"] =
        .ok (wRfa.removeKey "b") :=
  ⟨(C4_removal_behaviour wRfa "zz").1 rfl,
   ((C4_removal_behaviour wRfa "b").2
      ⟨some "nb", hashNonceValue idCrypto (some "nb") (.num 7)⟩ rfl).1,
   ((C4_removal_behaviour wRfa "b").2
      ⟨some "nb", hashNonceValue idCrypto (some "nb") (.num 7)⟩ rfl).2⟩

/-- C10: a number hashes exactly like its decimal string form (numbers are
reduced to `toString` before hashing, strings pass through), so replacing
a committed numeric attribute by its decimal-string form is invisible to
`verifyData`. -/
theorem C10_number_string_collision (H : Crypto) (n : Int) (nonce : Option String)
    (r : RequestForAttestation) (k : String) :
    hashObjectAsStr H (.num n) nonce = hashObjectAsStr H (.str (intToString n)) nonce
    ∧ ((∀ v, (k, v) ∈ r.claim.contents → v = Value.num n) →
        RequestForAttestation.verifyData H
            (r.replaceContentValue k (.str (intToString n))) =
          RequestForAttestation.verifyData H r) := by
  refine ⟨rfl, ?_⟩
  intro hval
  rw [verifyData_unfold, verifyData_unfold,
    replaceContentValue_rootHash, calculateRootHash_replaceContentValue,
    replaceContentValue_claimOwner, replaceContentValue_claim_owner,
    replaceContentValue_ctypeHash, replaceContentValue_claim_cTypeHash,
    replaceContentValue_claimHashTree, replaceContentValue_claim_contents,
    replaceContentValue_legitimations,
    attrCheck_replace_num H _ k n _ hval,
    verifySignature_replaceContentValue]

/-- C10 witness: the concrete committed request with numeric attribute b,
whose value 7 is replaced by the string 7. -/
theorem C10_number_string_collision_witness :
    hashObjectAsStr idCrypto (.num 7) (some "nb") =
      hashObjectAsStr idCrypto (.str (intToString 7)) (some "nb")
    ∧ RequestForAttestation.verifyData idCrypto
          (wRfa.replaceContentValue "b" (.str (intToString 7))) =
        RequestForAttestation.verifyData idCrypto wRfa := by
  refine ⟨(C10_number_string_collision idCrypto 7 (some "nb") wRfa "b").1, ?_⟩
  apply (C10_number_string_collision idCrypto 7 (some "nb") wRfa "b").2
  intro v hv
  have hc : wRfa.claim.contents =
      [("a", .str "va"), ("b", .num 7), ("c", .bool true)] := rfl
  rw [hc] at hv
  simp only [List.mem_cons, List.not_mem_nil, or_false] at hv
  rcases hv with h | h | h
  · exact absurd (congrArg Prod.fst h) (show ¬ ("b" : String) = "a" by decide)
  · exact congrArg Prod.snd h
  · exact absurd (congrArg Prod.fst h) (show ¬ ("b" : String) = "c" by decide)

/-- Strict key order on object fields. -/
def keyLt (a b : String × Value) : Prop := a.1 < b.1

instance : IsAntisymm (String × Value) keyLt :=
  ⟨fun _ _ h h' => absurd h' (lt_asymm h)⟩

/-- `sortFields` is just a map of the canonicalization over the entries. -/
theorem sortFields_eq_map (l : List (String × Value)) :
    sortFields l = l.map (fun p => (p.1, sortObj p.2)) := by
  induction l with
  | nil => rfl
  | cons p rest ih =>
    obtain ⟨k, v⟩ := p
    rw [sortFields, List.map_cons, ih]

/-- A list sorted under the reflexive key order whose keys are distinct is
sorted under the strict key order. -/
theorem sorted_keyLt_of_sorted_keyLe (l : List (String × Value))
    (hs : List.Sorted keyLe l) (hnd : (l.map Prod.fst).Nodup) :
    List.Sorted keyLt l := by
  have hnd' : List.Pairwise (fun a b : String × Value => a.1 ≠ b.1) l :=
    List.pairwise_map.mp hnd
  exact (hs.and hnd').imp (fun h => lt_of_le_of_ne h.1 h.2)

/-- C8: object hashing is independent of the key presentation order - two
objects with the same key-value pairs (distinct keys) in different orders
produce the same digest under any nonce. -/
theorem C8_hash_order_independent (H : Crypto) (l₁ l₂ : List (String × Value))
    (nonce : Option String)
    (hperm : l₁.Perm l₂) (hnd : (l₁.map Prod.fst).Nodup) :
    hashObjectAsStr H (.obj l₁) nonce = hashObjectAsStr H (.obj l₂) nonce := by
  have hfst : (Prod.fst ∘ fun p : String × Value => (p.1, sortObj p.2)) = Prod.fst := by
    funext p
    rfl
  have hperm' : (sortFields l₁).Perm (sortFields l₂) := by
    rw [sortFields_eq_map, sortFields_eq_map]
    exact hperm.map _
  have hnd₁ : ((sortFields l₁).map Prod.fst).Nodup := by
    rw [sortFields_eq_map, List.map_map, hfst]
    exact hnd
  have hnd₂ : ((sortFields l₂).map Prod.fst).Nodup :=
    ((hperm'.map Prod.fst).nodup_iff).mp hnd₁
  have hnds₁ : ((List.insertionSort keyLe (sortFields l₁)).map Prod.fst).Nodup :=
    (((List.perm_insertionSort keyLe (sortFields l₁)).map Prod.fst).nodup_iff).mpr hnd₁
  have hnds₂ : ((List.insertionSort keyLe (sortFields l₂)).map Prod.fst).Nodup :=
    (((List.perm_insertionSort keyLe (sortFields l₂)).map Prod.fst).nodup_iff).mpr hnd₂
  have hp : (List.insertionSort keyLe (sortFields l₁)).Perm
      (List.insertionSort keyLe (sortFields l₂)) :=
    ((List.perm_insertionSort keyLe (sortFields l₁)).trans hperm').trans
      (List.perm_insertionSort keyLe (sortFields l₂)).symm
  have hsort : sortObj (.obj l₁) = sortObj (.obj l₂) := by
    rw [sortObj, sortObj]
    congr 1
    exact List.eq_of_perm_of_sorted hp
      (sorted_keyLt_of_sorted_keyLe _ (List.sorted_insertionSort keyLe _) hnds₁)
      (sorted_keyLt_of_sorted_keyLe _ (List.sorted_insertionSort keyLe _) hnds₂)
  rw [hashObjectAsStr.eq_def, hashObjectAsStr.eq_def]
  simp only [hsort]

/-- C8 witness: two concrete two-field objects with swapped key order hash
identically. -/
theorem C8_hash_order_independent_witness :
    hashObjectAsStr idCrypto (.obj [("b", .num 1), ("a", .num 2)]) (some "n") =
      hashObjectAsStr idCrypto (.obj [("a", .num 2), ("b", .num 1)]) (some "n") :=
  C8_hash_order_independent idCrypto [("b", .num 1), ("a", .num 2)]
    [("a", .num 2), ("b", .num 1)] (some "n")
    (List.Perm.swap ("a", Value.num 2) ("b", Value.num 1) [])
    (by decide)
